import Mathlib

/-!
Verification development for the tamper-evident audit ledger of
`secure-bank-manager` (`src/audit_logger.py`, models `Journal` and
`ClotureJournal` from `src/models.py`, constants from `src/config.py`).

The Python code is shallowly embedded: the database session becomes an
explicit `DB` state threaded through the operations, `datetime` values are
modelled at second precision (the writer truncates microseconds with
`replace(microsecond=0)`), machine-level hashing is implemented bit-for-bit
(SHA-256 and HMAC-SHA256 over UTF-8 bytes, on `Nat` reduced mod 2^32), and
Python exceptions are modelled with `Except`/explicit failure results.
JSON numbers are modelled as integers (the audit payloads of this
application carry no floats).
-/

/-! ## Decimal and hexadecimal rendering -/

/-- Decimal digit character for `n < 10`. -/
def digitChar (n : Nat) : Char := Char.ofNat (48 + n)

/-- Helper for `natRepr`, structurally recursive on the fuel. -/
def natReprAux : Nat → Nat → String
  | 0, _ => ""
  | fuel + 1, n =>
    if n < 10 then String.singleton (digitChar n)
    else natReprAux fuel (n / 10) ++ String.singleton (digitChar (n % 10))

/-- Decimal rendering of a natural number, as Python `str(int)`. -/
def natRepr (n : Nat) : String := natReprAux (n + 1) n

/-- Decimal rendering of an integer, as Python `str(int)` / `json.dumps(int)`. -/
def intRepr : Int → String
  | Int.ofNat m => natRepr m
  | Int.negSucc m => "-" ++ natRepr (m + 1)

/-- Lowercase hexadecimal digit for `n < 16`, as produced by `hexdigest()`. -/
def hexDigit (n : Nat) : Char :=
  if n < 10 then Char.ofNat (48 + n) else Char.ofNat (87 + n)

/-- Fixed-width lowercase hexadecimal rendering (most significant first). -/
def hexFixed : Nat → Nat → List Char
  | 0, _ => []
  | w + 1, n => hexDigit (n / 16 ^ w % 16) :: hexFixed w n

/-- Zero-padded decimal rendering of width `w` (`%02d`-style). -/
def padNum (w n : Nat) : String :=
  let s := natRepr n
  String.mk (List.replicate (w - s.length) '0') ++ s

/-! ## UTF-8 encoding (`str.encode('utf-8')`), bytes as `Nat` -/

/-- UTF-8 encoding of one Unicode scalar value. -/
def utf8Enc (c : Char) : List Nat :=
  let n := c.toNat
  if n < 128 then [n]
  else if n < 2048 then [192 + n / 64, 128 + n % 64]
  else if n < 65536 then [224 + n / 4096, 128 + n / 64 % 64, 128 + n % 64]
  else [240 + n / 262144, 128 + n / 4096 % 64, 128 + n / 64 % 64, 128 + n % 64]

/-- UTF-8 bytes of a string. -/
def strBytes (s : String) : List Nat := s.data.flatMap utf8Enc

/-! ## SHA-256 (`hashlib.sha256`), words as `Nat` reduced mod 2^32 -/

/-- 2^32, the word modulus. -/
def M32 : Nat := 4294967296

/-- Addition mod 2^32. -/
def add32 (a b : Nat) : Nat := (a + b) % M32

/-- Right rotation of a 32-bit word. -/
def rotr32 (x n : Nat) : Nat := ((x >>> n) ||| (x <<< (32 - n))) % M32

/-- The SHA-256 round constants (FIPS 180-4, in decimal). -/
def shaK : List Nat :=
  [1116352408, 1899447441, 3049323471, 3921009573, 961987163,
   1508970993, 2453635748, 2870763221, 3624381080, 310598401,
   607225278, 1426881987, 1925078388, 2162078206, 2614888103,
   3248222580, 3835390401, 4022224774, 264347078, 604807628,
   770255983, 1249150122, 1555081692, 1996064986, 2554220882,
   2821834349, 2952996808, 3210313671, 3336571891, 3584528711,
   113926993, 338241895, 666307205, 773529912, 1294757372,
   1396182291, 1695183700, 1986661051, 2177026350, 2456956037,
   2730485921, 2820302411, 3259730800, 3345764771, 3516065817,
   3600352804, 4094571909, 275423344, 430227734, 506948616,
   659060556, 883997877, 958139571, 1322822218, 1537002063,
   1747873779, 1955562222, 2024104815, 2227730452, 2361852424,
   2428436474, 2756734187, 3204031479, 3329325298]

/-- The SHA-256 initial hash value (FIPS 180-4, in decimal). -/
def shaH0 : List Nat :=
  [1779033703, 3144134277, 1013904242, 2773480762,
   1359893119, 2600822924, 528734635, 1541459225]

/-- Big-endian 8-byte rendering of the message bit length. -/
def be64 (n : Nat) : List Nat :=
  [n / 2 ^ 56 % 256, n / 2 ^ 48 % 256, n / 2 ^ 40 % 256, n / 2 ^ 32 % 256,
   n / 2 ^ 24 % 256, n / 2 ^ 16 % 256, n / 2 ^ 8 % 256, n % 256]

/-- Big-endian 4-byte rendering of one 32-bit word. -/
def be32 (n : Nat) : List Nat :=
  [n / 2 ^ 24 % 256, n / 2 ^ 16 % 256, n / 2 ^ 8 % 256, n % 256]

/-- SHA-256 message padding: `0x80`, zeros, 64-bit big-endian bit length. -/
def shaPad (msg : List Nat) : List Nat :=
  let z := (120 - (msg.length + 1) % 64) % 64
  msg ++ [0x80] ++ List.replicate z 0 ++ be64 (8 * msg.length)

/-- Split a byte list into 64-byte chunks (fuel-driven, fuel ≥ chunk count). -/
def chunks64 : Nat → List Nat → List (List Nat)
  | 0, _ => []
  | _, [] => []
  | fuel + 1, l => l.take 64 :: chunks64 fuel (l.drop 64)

/-- Pack 4 big-endian bytes into each 32-bit word of a chunk. -/
def packWords : List Nat → List Nat
  | b0 :: b1 :: b2 :: b3 :: rest =>
    (b0 * 2 ^ 24 + b1 * 2 ^ 16 + b2 * 2 ^ 8 + b3) :: packWords rest
  | _ => []

/-- Message-schedule extension; `wrev` holds the words newest-first. -/
def shaExtend : Nat → List Nat → List Nat
  | 0, wrev => wrev
  | fuel + 1, wrev =>
    let w15 := wrev.getD 14 0
    let w2 := wrev.getD 1 0
    let s0 := (rotr32 w15 7) ^^^ (rotr32 w15 18) ^^^ (w15 >>> 3)
    let s1 := (rotr32 w2 17) ^^^ (rotr32 w2 19) ^^^ (w2 >>> 10)
    shaExtend fuel (add32 (add32 (wrev.getD 15 0) s0) (add32 (wrev.getD 6 0) s1) :: wrev)

/-- The eight SHA-256 working variables. -/
structure Sha8 where
  a : Nat
  b : Nat
  c : Nat
  d : Nat
  e : Nat
  f : Nat
  g : Nat
  h : Nat

/-- One SHA-256 compression round. -/
def shaRound (st : Sha8) (kw : Nat × Nat) : Sha8 :=
  let S1 := (rotr32 st.e 6) ^^^ (rotr32 st.e 11) ^^^ (rotr32 st.e 25)
  let ch := (st.e &&& st.f) ^^^ ((st.e ^^^ (M32 - 1)) &&& st.g)
  let t1 := add32 (add32 (add32 st.h S1) (add32 ch kw.1)) kw.2
  let S0 := (rotr32 st.a 2) ^^^ (rotr32 st.a 13) ^^^ (rotr32 st.a 22)
  let mj := (st.a &&& st.b) ^^^ (st.a &&& st.c) ^^^ (st.b &&& st.c)
  let t2 := add32 S0 mj
  { a := add32 t1 t2, b := st.a, c := st.b, d := st.c,
    e := add32 st.d t1, f := st.e, g := st.f, h := st.g }

/-- Compress one 64-byte chunk into the running hash state. -/
def shaCompress (hs : List Nat) (chunk : List Nat) : List Nat :=
  let w := (shaExtend 48 (packWords chunk).reverse).reverse
  let st0 : Sha8 :=
    { a := hs.getD 0 0, b := hs.getD 1 0, c := hs.getD 2 0, d := hs.getD 3 0,
      e := hs.getD 4 0, f := hs.getD 5 0, g := hs.getD 6 0, h := hs.getD 7 0 }
  let st := (shaK.zip w).foldl shaRound st0
  [add32 (hs.getD 0 0) st.a, add32 (hs.getD 1 0) st.b,
   add32 (hs.getD 2 0) st.c, add32 (hs.getD 3 0) st.d,
   add32 (hs.getD 4 0) st.e, add32 (hs.getD 5 0) st.f,
   add32 (hs.getD 6 0) st.g, add32 (hs.getD 7 0) st.h]

/-- SHA-256 state words of a byte message. -/
def sha256Words (msg : List Nat) : List Nat :=
  let padded := shaPad msg
  (chunks64 padded.length padded).foldl shaCompress shaH0

/-- SHA-256 digest bytes of a byte message. -/
def sha256Bytes (msg : List Nat) : List Nat :=
  (sha256Words msg).flatMap be32

/-- SHA-256 lowercase hex digest of a byte message (`hexdigest()`). -/
def sha256Hex (msg : List Nat) : String :=
  String.mk ((sha256Words msg).flatMap (hexFixed 8))

/-! ## HMAC-SHA256 (`hmac.new(secret, data, hashlib.sha256)`) -/

/-- HMAC-SHA256 lowercase hex digest over byte lists. -/
def hmacSha256Hex (key msg : List Nat) : String :=
  let k0 := if 64 < key.length then sha256Bytes key else key
  let k := k0 ++ List.replicate (64 - k0.length) 0
  let ipad := k.map (fun b => b ^^^ 0x36)
  let opad := k.map (fun b => b ^^^ 0x5C)
  sha256Hex (opad ++ sha256Bytes (ipad ++ msg))

/-! ## JSON values

Structured JSON values as handled by Python `json`. Numbers are restricted
to integers: the audit payloads of this application (`details` dictionaries
of ids, counters, flags and strings) carry no floats, and the parser below
rejects float literals rather than misrepresent them. -/

/-- A JSON-compatible structured value. Object members keep insertion
order (like a Python `dict`); serialization sorts them (`sort_keys=True`). -/
inductive Json where
  | null
  | bool (b : Bool)
  | num (n : Int)
  | str (s : String)
  | arr (elems : List Json)
  | obj (members : List (String × Json))
deriving Repr

/-- Python truthiness (`if details:`) of a JSON value: `None`, `False`, `0`,
`""`, `[]` and `{}` are falsy. -/
def pyTruthy : Json → Bool
  | Json.null => false
  | Json.bool b => b
  | Json.num n => !(n == 0)
  | Json.str s => !(s == "")
  | Json.arr xs => !xs.isEmpty
  | Json.obj ms => !ms.isEmpty

/-! ## Canonical serialization (`json.dumps(..., ensure_ascii=False, sort_keys=True)`) -/

/-- JSON string escaping with `ensure_ascii=False`: only `"`, `\` and
control characters below U+0020 are escaped; non-ASCII is kept literal. -/
def escChar (c : Char) : String :=
  if c = '"' then "\\\""
  else if c = '\\' then "\\\\"
  else if c = '\n' then "\\n"
  else if c = '\t' then "\\t"
  else if c = '\r' then "\\r"
  else if c.toNat = 8 then "\\b"
  else if c.toNat = 12 then "\\f"
  else if c.toNat < 32 then "\\u" ++ String.mk (hexFixed 4 c.toNat)
  else String.singleton c

/-- A JSON string literal. -/
def escString (s : String) : String :=
  "\"" ++ String.join (s.data.map escChar) ++ "\""

/-- Concatenation with separators (`sep.join`). -/
def joinSep (sep : String) : List String → String
  | [] => ""
  | [x] => x
  | x :: rest => x ++ sep ++ joinSep sep rest

/-- Code-point lexicographic order on character lists: how Python compares
strings (a strict prefix sorts first). -/
def charListLtb : List Char → List Char → Bool
  | [], [] => false
  | [], _ :: _ => true
  | _ :: _, [] => false
  | a :: as, b :: bs =>
    if a.toNat < b.toNat then true
    else if b.toNat < a.toNat then false
    else charListLtb as bs

/-- Python's `<` on strings: code-point lexicographic. -/
def strLtb (a b : String) : Bool := charListLtb a.data b.data

/-- Stable insertion of one rendered member by key order. -/
def insertRendered (p : String × String) :
    List (String × String) → List (String × String)
  | [] => [p]
  | q :: rest =>
    if strLtb p.1 q.1 then p :: q :: rest else q :: insertRendered p rest

/-- Stable sort of rendered members by key (`sort_keys=True`, Python's
code-point string order). Sorting the members before or after rendering
them yields the same string, since the order only depends on the keys. -/
def sortRendered : List (String × String) → List (String × String)
  | [] => []
  | p :: rest => insertRendered p (sortRendered rest)

mutual

/-- `json.dumps(v, ensure_ascii=False, sort_keys=True, separators=(isep, ksep))`:
the canonical serialization; `isep`/`ksep` are the item and key separators. -/
def json_dumps (isep ksep : String) : Json → String
  | Json.null => "null"
  | Json.bool true => "true"
  | Json.bool false => "false"
  | Json.num n => intRepr n
  | Json.str s => escString s
  | Json.arr xs => "[" ++ joinSep isep (dumpsElems isep ksep xs) ++ "]"
  | Json.obj ms =>
    "\x7b" ++
      joinSep isep ((sortRendered (dumpsMembers isep ksep ms)).map
        (fun p => escString p.1 ++ ksep ++ p.2)) ++
      "\x7d"

/-- Serialize each array element. -/
def dumpsElems (isep ksep : String) : List Json → List String
  | [] => []
  | x :: rest => json_dumps isep ksep x :: dumpsElems isep ksep rest

/-- Render each object member to its key and serialized value. -/
def dumpsMembers (isep ksep : String) : List (String × Json) → List (String × String)
  | [] => []
  | (k, v) :: rest => (k, json_dumps isep ksep v) :: dumpsMembers isep ksep rest

end

/-! ## JSON parsing (`json.loads`) -/

/-- Skip JSON whitespace. -/
def skipWs : List Char → List Char
  | c :: rest =>
    if c = ' ' ∨ c = '\t' ∨ c = '\n' ∨ c = '\r' then skipWs rest else c :: rest
  | [] => []

/-- ASCII decimal digit test. -/
def isDigitCh (c : Char) : Bool := 48 ≤ c.toNat && c.toNat ≤ 57

/-- Hexadecimal digit value, if any. -/
def hexVal (c : Char) : Option Nat :=
  if 48 ≤ c.toNat ∧ c.toNat ≤ 57 then some (c.toNat - 48)
  else if 97 ≤ c.toNat ∧ c.toNat ≤ 102 then some (c.toNat - 87)
  else if 65 ≤ c.toNat ∧ c.toNat ≤ 70 then some (c.toNat - 55)
  else none

/-- Parse the body of a JSON string literal (after the opening quote),
handling escapes; strict mode rejects raw control characters. Lone
surrogate escapes, which Python would keep, are outside `Char` and map to
U+0000. -/
def parseStrChars : List Char → Option (List Char × List Char)
  | [] => none
  | '"' :: rest => some ([], rest)
  | '\\' :: esc =>
    match esc with
    | '"' :: rest => (parseStrChars rest).map (fun p => ('"' :: p.1, p.2))
    | '\\' :: rest => (parseStrChars rest).map (fun p => ('\\' :: p.1, p.2))
    | '/' :: rest => (parseStrChars rest).map (fun p => ('/' :: p.1, p.2))
    | 'n' :: rest => (parseStrChars rest).map (fun p => ('\n' :: p.1, p.2))
    | 't' :: rest => (parseStrChars rest).map (fun p => ('\t' :: p.1, p.2))
    | 'r' :: rest => (parseStrChars rest).map (fun p => ('\r' :: p.1, p.2))
    | 'b' :: rest => (parseStrChars rest).map (fun p => (Char.ofNat 8 :: p.1, p.2))
    | 'f' :: rest => (parseStrChars rest).map (fun p => (Char.ofNat 12 :: p.1, p.2))
    | 'u' :: h1 :: h2 :: h3 :: h4 :: rest =>
      match hexVal h1, hexVal h2, hexVal h3, hexVal h4 with
      | some v1, some v2, some v3, some v4 =>
        (parseStrChars rest).map
          (fun p => (Char.ofNat (v1 * 4096 + v2 * 256 + v3 * 16 + v4) :: p.1, p.2))
      | _, _, _, _ => none
    | _ => none
  | c :: rest =>
    if c.toNat < 32 then none
    else (parseStrChars rest).map (fun p => (c :: p.1, p.2))

/-- Longest digit prefix. -/
def takeDigits : List Char → List Char × List Char
  | [] => ([], [])
  | c :: rest =>
    if isDigitCh c then
      let p := takeDigits rest
      (c :: p.1, p.2)
    else ([], c :: rest)

/-- Numeric value of a digit list. -/
def digitsVal (ds : List Char) : Nat :=
  ds.foldl (fun acc c => acc * 10 + (c.toNat - 48)) 0

/-- Parse a JSON number. Python's grammar forbids leading zeros; a
fraction or exponent would produce a float, which this integer model
rejects as unrepresentable. -/
def parseNumber (cs : List Char) : Option (Json × List Char) :=
  let (neg, cs1) := match cs with
    | '-' :: rest => (true, rest)
    | _ => (false, cs)
  match takeDigits cs1 with
  | ([], _) => none
  | (d :: ds, rest) =>
    if d = '0' ∧ ds ≠ [] then none
    else
      match rest with
      | '.' :: _ => none
      | 'e' :: _ => none
      | 'E' :: _ => none
      | _ =>
        let v : Int := Int.ofNat (digitsVal (d :: ds))
        some (Json.num (if neg then -v else v), rest)

/-- Python `dict` insertion for object members: an existing key keeps its
position and takes the new value. -/
def insertPair (k : String) (v : Json) (ms : List (String × Json)) :
    List (String × Json) :=
  if ms.any (fun p => p.1 == k) then
    ms.map (fun p => if p.1 == k then (k, v) else p)
  else ms ++ [(k, v)]

mutual

/-- Parse one JSON value (fuel-driven recursive descent). -/
def parseVal : Nat → List Char → Option (Json × List Char)
  | 0, _ => none
  | fuel + 1, cs =>
    match skipWs cs with
    | [] => none
    | 'n' :: 'u' :: 'l' :: 'l' :: rest => some (Json.null, rest)
    | 't' :: 'r' :: 'u' :: 'e' :: rest => some (Json.bool true, rest)
    | 'f' :: 'a' :: 'l' :: 's' :: 'e' :: rest => some (Json.bool false, rest)
    | '"' :: rest =>
      (parseStrChars rest).map (fun p => (Json.str (String.mk p.1), p.2))
    | '[' :: rest =>
      (match skipWs rest with
       | ']' :: rest2 => some (Json.arr [], rest2)
       | cs2 => (parseElems fuel cs2).map (fun p => (Json.arr p.1, p.2)))
    | c :: rest =>
      if c = Char.ofNat 123 then
        (match skipWs rest with
         | c2 :: rest2 =>
           if c2 = Char.ofNat 125 then some (Json.obj [], rest2)
           else (parseMembers fuel (c2 :: rest2)).map (fun p => (Json.obj p.1, p.2))
         | [] => none)
      else if c = '-' ∨ isDigitCh c then parseNumber (c :: rest)
      else none

/-- Parse the comma-separated elements of a non-empty array. -/
def parseElems : Nat → List Char → Option (List Json × List Char)
  | 0, _ => none
  | fuel + 1, cs =>
    (parseVal fuel cs).bind (fun p =>
      match skipWs p.2 with
      | ',' :: rest =>
        (parseElems fuel rest).map (fun q => (p.1 :: q.1, q.2))
      | ']' :: rest => some ([p.1], rest)
      | _ => none)

/-- Parse the comma-separated members of a non-empty object. -/
def parseMembers : Nat → List Char → Option (List (String × Json) × List Char)
  | 0, _ => none
  | fuel + 1, cs =>
    match skipWs cs with
    | '"' :: rest =>
      (parseStrChars rest).bind (fun kp =>
        match skipWs kp.2 with
        | ':' :: rest2 =>
          (parseVal fuel rest2).bind (fun vp =>
            match skipWs vp.2 with
            | ',' :: rest3 =>
              (parseMembers fuel rest3).map
                (fun q => (insertPair (String.mk kp.1) vp.1 q.1, q.2))
            | c :: rest3 =>
              if c = Char.ofNat 125 then
                some ([(String.mk kp.1, vp.1)], rest3)
              else none
            | [] => none)
        | _ => none)
    | _ => none

end

/-- `json.loads(s)`: `none` models the `json.JSONDecodeError` raise. Extra
non-whitespace after the value is an error, as in Python. -/
def json_loads (s : String) : Option Json :=
  match parseVal (2 * s.length + 2) s.data with
  | some (v, rest) => if (skipWs rest).isEmpty then some v else none
  | none => none

/-! ## Configuration (`src/config.py`) -/

/-- `Config.HMAC_SECRET_KEY`: the process-wide signing secret
(default value of the environment lookup in `src/config.py`). -/
def HMAC_SECRET_KEY : String := "change-this-hmac-key"

/-- Modelled from the spec: the fixed genesis sentinel constant
`Config.GENESIS_HASH` is referenced throughout `src/audit_logger.py` but its
definition is not among the provided sources (`src/config.py` does not
declare it). The spec fixes only that it is "a fixed constant value used as
`previousHash` for the first entry ever written"; no claim depends on the
concrete value chosen here. -/
def GENESIS_HASH : String :=
  "0000000000000000000000000000000000000000000000000000000000000000"

/-- `calculer_hash(data)`: SHA-256 hex digest of the UTF-8 bytes. -/
def calculer_hash (data : String) : String := sha256Hex (strBytes data)

/-- `calculer_hmac(data)`: HMAC-SHA256 hex digest keyed with the
application secret. -/
def calculer_hmac (data : String) : String :=
  hmacSha256Hex (strBytes HMAC_SECRET_KEY) (strBytes data)

/-! ## Dates and timestamps

`datetime` values are modelled at second precision: the writer stores
`datetime.utcnow().replace(microsecond=0)`, so every persisted timestamp
has zero microseconds. -/

/-- A Python `datetime.date`. -/
structure PyDate where
  year : Nat
  month : Nat
  day : Nat
deriving DecidableEq, Repr, Inhabited

/-- `date.isoformat()` / `str(date)`: zero-padded `YYYY-MM-DD`. -/
def PyDate.isoformat (d : PyDate) : String :=
  padNum 4 d.year ++ "-" ++ padNum 2 d.month ++ "-" ++ padNum 2 d.day

/-- A Python `datetime` with zero microseconds. -/
structure Datetime where
  date : PyDate
  hour : Nat
  minute : Nat
  second : Nat
deriving DecidableEq, Repr, Inhabited

/-- `datetime.isoformat()` at whole-second precision:
`YYYY-MM-DDTHH:MM:SS`. -/
def Datetime.isoformat (t : Datetime) : String :=
  t.date.isoformat ++ "T" ++ padNum 2 t.hour ++ ":" ++ padNum 2 t.minute ++
    ":" ++ padNum 2 t.second

/-- Strict date order (field-lexicographic, as Python compares dates). -/
def PyDate.ltb (a b : PyDate) : Bool :=
  a.year < b.year ||
    (a.year == b.year &&
      (a.month < b.month || (a.month == b.month && a.day < b.day)))

/-- Seconds since midnight. -/
def Datetime.tod (t : Datetime) : Nat :=
  t.hour * 3600 + t.minute * 60 + t.second

/-- Datetime order (field-lexicographic, as Python compares datetimes). -/
def Datetime.leb (a b : Datetime) : Bool :=
  PyDate.ltb a.date b.date || (a.date == b.date && a.tod ≤ b.tod)

/-- `datetime.combine(date_cloture, datetime.min.time())`. -/
def debut_jour (d : PyDate) : Datetime := ⟨d, 0, 0, 0⟩

/-- `datetime.combine(date_cloture, datetime.max.time())`, at the second
precision of this model: stored timestamps have zero microseconds, so
comparing against 23:59:59 is equivalent to Python's 23:59:59.999999. -/
def fin_jour (d : PyDate) : Datetime := ⟨d, 23, 59, 59⟩

/-- The `cloturer_journee` day filter:
`debut_jour <= horodatage <= fin_jour`. -/
def inWindow (d : PyDate) (t : Datetime) : Bool :=
  Datetime.leb (debut_jour d) t && Datetime.leb t (fin_jour d)

/-! ## Persistent rows (`src/models.py`) and the database state -/

/-- One `journaux` row (model `Journal`). -/
structure Journal where
  id : Nat
  horodatage : Datetime
  utilisateur_id : Option Int
  action : String
  cible : Option String
  details : Option String
  hash_precedent : String
  hash_actuel : String
  signature_hmac : String
deriving DecidableEq, Repr, Inhabited

/-- One `clotures_journaux` row (model `ClotureJournal`). The display-only
creation timestamp `cloture_le` is not modelled: no operation reads it. -/
structure ClotureJournal where
  id : Nat
  date : PyDate
  dernier_log_id : Nat
  hash_racine : String
  signature_hmac : String
deriving DecidableEq, Repr

/-- The database state: both audit tables, rows in insertion order
(ascending autoincrement `id`). -/
structure DB where
  journal : List Journal
  clotures : List ClotureJournal
deriving DecidableEq, Repr

/-- The empty database. -/
def DB.empty : DB := ⟨[], []⟩

/-- Decidable equality of `Except` results, for concrete evaluation. -/
instance {ε α : Type} [DecidableEq ε] [DecidableEq α] :
    DecidableEq (Except ε α) := fun a b =>
  match a, b with
  | Except.ok x, Except.ok y =>
    if h : x = y then isTrue (by rw [h]) else isFalse (by simp [h])
  | Except.error x, Except.error y =>
    if h : x = y then isTrue (by rw [h]) else isFalse (by simp [h])
  | Except.ok _, Except.error _ => isFalse (by simp)
  | Except.error _, Except.ok _ => isFalse (by simp)

/-! ## Canonical audit payload (`log_action` steps 1-3) -/

/-- A nullable integer as a JSON value. -/
def optIntJson : Option Int → Json
  | some n => Json.num n
  | none => Json.null

/-- A nullable string as a JSON value. -/
def optStrJson : Option String → Json
  | some s => Json.str s
  | none => Json.null

/-- The `audit_payload` dict (insertion order as written in the source;
serialization sorts the keys). -/
def audit_payload (ts : String) (uid : Option Int) (action : String)
    (cible : Option String) (dv : Json) (prev : String) : Json :=
  Json.obj [("timestamp", Json.str ts), ("utilisateur_id", optIntJson uid),
            ("action", Json.str action), ("cible", optStrJson cible),
            ("details", dv), ("hash_precedent", Json.str prev)]

/-- `canonical_json`: `json.dumps(audit_payload, ensure_ascii=False,
sort_keys=True, separators=(",", ":"))`. -/
def audit_canonical (ts : String) (uid : Option Int) (action : String)
    (cible : Option String) (dv : Json) (prev : String) : String :=
  json_dumps "," ":" (audit_payload ts uid action cible dv prev)

/-- `details_json = json.dumps(details, ensure_ascii=False, sort_keys=True)
if details else None`: the stored `details` column (default separators,
`None` for a falsy argument — in particular for an empty dict). -/
def detailsJsonOf (details : Option Json) : Option String :=
  match details with
  | some d => if pyTruthy d then some (json_dumps ", " ": " d) else none
  | none => none

/-- `json.loads(s) if s else None` on a stored nullable string column;
`Except.error` models the `json.JSONDecodeError` raise on a non-JSON
string. -/
def details_value : Option String → Except Unit Json
  | none => Except.ok Json.null
  | some s =>
    if s = "" then Except.ok Json.null
    else
      match json_loads s with
      | some v => Except.ok v
      | none => Except.error ()

/-! ## Ledger writer (`log_action`) -/

/-- `session.query(Journal).order_by(desc(Journal.id)).first()`: the row
with the greatest `id`, if any. -/
def dernier_log : List Journal → Option Journal
  | [] => none
  | e :: rest =>
    match dernier_log rest with
    | none => some e
    | some m => if m.id < e.id then some e else some m

/-- `dernier_log.hash_actuel if dernier_log else Config.GENESIS_HASH`. -/
def prevHashOf (l : List Journal) : String :=
  match dernier_log l with
  | some m => m.hash_actuel
  | none => GENESIS_HASH

/-- The autoincrement primary key assigned by storage on insert. -/
def nextId (l : List Journal) : Nat :=
  match dernier_log l with
  | some m => m.id + 1
  | none => 1

/-- `log_action(utilisateur_id, action, cible, details)`.

`now` is the value of `datetime.utcnow().replace(microsecond=0)`;
`commitOk` models whether `session.commit()` succeeds (a `StorageFailure`
on commit is the injected fault). Every exception along the body — the
`json.loads` of a malformed `details_json`, or the failed commit — is
caught by the surrounding `try/except`, which rolls the session back and
returns `False`; hence the result is a total pair and the state is the
unchanged `db` on every failure path. -/
def log_action (db : DB) (utilisateur_id : Option Int) (action : String)
    (cible : Option String) (details : Option Json) (now : Datetime)
    (commitOk : Bool) : DB × Bool :=
  let details_json := detailsJsonOf details
  let hash_precedent := prevHashOf db.journal
  match details_value details_json with
  | Except.error _ => (db, false)
  | Except.ok dv =>
    let canonical_json :=
      audit_canonical (now.isoformat ++ "Z") utilisateur_id action cible dv
        hash_precedent
    let nouveau_log : Journal :=
      { id := nextId db.journal, horodatage := now,
        utilisateur_id := utilisateur_id, action := action, cible := cible,
        details := details_json, hash_precedent := hash_precedent,
        hash_actuel := calculer_hash canonical_json,
        signature_hmac := calculer_hmac canonical_json }
    if commitOk then ({ db with journal := db.journal ++ [nouveau_log] }, true)
    else (db, false)

/-! ## Ledger verifier (`verifier_integrite`) -/

/-- The canonical payload recomputed from the stored fields of one entry,
exactly as both verification loops rebuild it; `Except.error` models the
uncaught `json.JSONDecodeError` on a corrupted `details` column. -/
def canonical_of_entry (e : Journal) : Except Unit String :=
  (details_value e.details).map
    (fun dv => audit_canonical (e.horodatage.isoformat ++ "Z")
      e.utilisateur_id e.action e.cible dv e.hash_precedent)

/-- The error messages contributed by one entry: chaining, content hash
and HMAC checks, in the order of the source. -/
def entry_msgs (prev : String) (e : Journal) (c : String) : List String :=
  (if e.hash_precedent ≠ prev then
    ["Log #" ++ natRepr e.id ++ " : Rupture de chaîne (Hash précédent invalide)"]
   else []) ++
  (if e.hash_actuel ≠ calculer_hash c then
    ["Log #" ++ natRepr e.id ++ " : Données corrompues (Hash invalide)"]
   else []) ++
  (if e.signature_hmac ≠ calculer_hmac c then
    ["Log #" ++ natRepr e.id ++ " : Signature falsifiée (HMAC invalide)"]
   else [])

/-- The verification loop. `prev` is the rolling `hash_attendu_precedent`,
which advances to the *stored* `hash_actuel` of each processed entry. An
`Except.error` aborts the whole run, discarding the messages gathered so
far, exactly as the uncaught exception would. -/
def verif_chain (prev : String) : List Journal → Except Unit (List String)
  | [] => Except.ok []
  | e :: rest =>
    match canonical_of_entry e with
    | Except.error u => Except.error u
    | Except.ok c =>
      (verif_chain e.hash_actuel rest).map (fun tail => entry_msgs prev e c ++ tail)

/-- `verifier_integrite()`: walks the rows in ascending `id` order (the
list is the `order_by(Journal.id)` result) and returns
`(len(erreurs) == 0, erreurs)`. -/
def verifier_integrite (logs : List Journal) : Except Unit (Bool × List String) :=
  (verif_chain GENESIS_HASH logs).map (fun erreurs => (erreurs.isEmpty, erreurs))

/-! ## Detailed verifier (`verifier_integrite_detailed`) -/

/-- One entry of the detailed report dict. -/
structure DetailEntry where
  id : Nat
  horodatage : String
  utilisateur_id : Option Int
  action : String
  cible : Option String
  details : Json
  hash_precedent : String
  hash_actuel : String
  signature_hmac : String
  status : String
  errors : List String
deriving Repr

/-- The per-entry error tags, in source order. -/
def entry_tags (prev : String) (e : Journal) (c : String) : List String :=
  (if e.hash_precedent ≠ prev then ["rupture_precedent"] else []) ++
  (if e.hash_actuel ≠ calculer_hash c then ["hash_invalide"] else []) ++
  (if e.signature_hmac ≠ calculer_hmac c then ["hmac_invalide"] else [])

/-- The per-entry status: each failed check overwrites `status`, so the
last failing check in source order wins. -/
def entry_status (prev : String) (e : Journal) (c : String) : String :=
  if e.signature_hmac ≠ calculer_hmac c then "bad_hmac"
  else if e.hash_actuel ≠ calculer_hash c then "bad_hash"
  else if e.hash_precedent ≠ prev then "broken_precedent"
  else "ok"

/-- Build one report entry. -/
def mkDetailEntry (prev : String) (e : Journal) (dv : Json) (c : String) :
    DetailEntry :=
  { id := e.id, horodatage := e.horodatage.isoformat,
    utilisateur_id := e.utilisateur_id, action := e.action, cible := e.cible,
    details := dv, hash_precedent := e.hash_precedent,
    hash_actuel := e.hash_actuel, signature_hmac := e.signature_hmac,
    status := entry_status prev e c, errors := entry_tags prev e c }

/-- The detailed verification loop: per-entry reports plus the global
`(id, tag)` error list, with the same rolling stored-hash `prev`. -/
def verif_detailed_chain (prev : String) :
    List Journal → Except Unit (List DetailEntry × List (Nat × String))
  | [] => Except.ok ([], [])
  | e :: rest =>
    match details_value e.details with
    | Except.error u => Except.error u
    | Except.ok dv =>
      let c := audit_canonical (e.horodatage.isoformat ++ "Z")
        e.utilisateur_id e.action e.cible dv e.hash_precedent
      (verif_detailed_chain e.hash_actuel rest).map
        (fun p => (mkDetailEntry prev e dv c :: p.1,
          (entry_tags prev e c).map (fun t => (e.id, t)) ++ p.2))

/-- `verifier_integrite_detailed(limit)`: optionally truncates to the
first `limit` rows (`query.limit`), then reports
`{'valid': len(errors) == 0, 'entries': ..., 'errors': ...}`. -/
def verifier_integrite_detailed (logs : List Journal) (limit : Option Nat) :
    Except Unit (Bool × List DetailEntry × List (Nat × String)) :=
  let logs := match limit with
    | none => logs
    | some n => logs.take n
  (verif_detailed_chain GENESIS_HASH logs).map
    (fun p => (p.2.isEmpty, p.1, p.2))

/-! ## Daily closures (`cloturer_journee`, `verifier_clotures`) -/

/-- The canonical closure string
`f"CLOTURE|{date.isoformat()}|{dernier_log.id}|{hash_racine}"`. -/
def cloture_payload (d : PyDate) (logId : Nat) (racine : String) : String :=
  "CLOTURE|" ++ d.isoformat ++ "|" ++ natRepr logId ++ "|" ++ racine

/-- Greatest closure id, for the autoincrement primary key. -/
def maxClotureId : List ClotureJournal → Nat
  | [] => 0
  | c :: rest => max c.id (maxClotureId rest)

/-- The autoincrement primary key assigned on closure insert. -/
def nextClotureId (l : List ClotureJournal) : Nat := maxClotureId l + 1

/-- `cloturer_journee(date_cloture)`. `commitOk` models whether
`session.commit()` succeeds; the `except` branch rolls back and returns
`False` with the error message. -/
def cloturer_journee (db : DB) (date_cloture : PyDate) (commitOk : Bool) :
    DB × Bool × String :=
  match db.clotures.find? (fun c => c.date == date_cloture) with
  | some _ =>
    (db, false, "La journée du " ++ date_cloture.isoformat ++ " est déjà clôturée.")
  | none =>
    match dernier_log (db.journal.filter (fun e => inWindow date_cloture e.horodatage)) with
    | none =>
      (db, false, "Aucun log trouvé pour la journée du " ++ date_cloture.isoformat ++ ".")
    | some dl =>
      let hash_racine := dl.hash_actuel
      let signature := calculer_hmac (cloture_payload date_cloture dl.id hash_racine)
      let nouvelle_cloture : ClotureJournal :=
        { id := nextClotureId db.clotures, date := date_cloture,
          dernier_log_id := dl.id, hash_racine := hash_racine,
          signature_hmac := signature }
      if commitOk then
        ({ db with clotures := db.clotures ++ [nouvelle_cloture] }, true,
          "Clôture du " ++ date_cloture.isoformat ++ " réussie.")
      else (db, false, "Erreur de clôture : échec de la transaction.")

/-- The `verifier_clotures` loop: recompute each signature from the stored
columns and collect the mismatches, in scan order. -/
def verifier_clotures_scan : List ClotureJournal → List String × List Nat
  | [] => ([], [])
  | c :: rest =>
    let p := verifier_clotures_scan rest
    if c.signature_hmac ≠ calculer_hmac (cloture_payload c.date c.dernier_log_id c.hash_racine)
    then (("Clôture du " ++ c.date.isoformat ++ " : Signature HMAC invalide (Falsification détectée)") :: p.1,
          c.id :: p.2)
    else p

/-- `verifier_clotures()`: rows in `order_by(date)` order; returns
`(len(erreurs) == 0, erreurs, ids_invalides)`. -/
def verifier_clotures (clotures : List ClotureJournal) :
    Bool × List String × List Nat :=
  let p := verifier_clotures_scan clotures
  (p.1.isEmpty, p.1, p.2)
/-! ## Helper lemmas -/

/-- The tail read is empty only on the empty table. -/
theorem dernier_log_eq_none {l : List Journal} :
    dernier_log l = none ↔ l = [] := by
  cases l with
  | nil => simp [dernier_log]
  | cons e rest =>
    simp only [dernier_log]
    constructor
    · intro h
      exfalso
      cases h2 : dernier_log rest <;> rw [h2] at h <;> dsimp only at h
      · exact Option.noConfusion h
      · split at h <;> exact Option.noConfusion h
    · intro h
      exact absurd h (List.cons_ne_nil e rest)

/-- The tail read returns a row of the table. -/
theorem dernier_log_mem {l : List Journal} {m : Journal}
    (h : dernier_log l = some m) : m ∈ l := by
  induction l generalizing m with
  | nil => simp [dernier_log] at h
  | cons e rest ih =>
    unfold dernier_log at h
    cases hr : dernier_log rest with
    | none =>
      rw [hr] at h
      injection h with h'
      subst h'
      exact List.mem_cons_self e rest
    | some m' =>
      rw [hr] at h
      dsimp only at h
      by_cases hid : m'.id < e.id
      · rw [if_pos hid] at h
        injection h with h'
        subst h'
        exact List.mem_cons_self e rest
      · rw [if_neg hid] at h
        injection h with h'
        subst h'
        exact List.mem_cons_of_mem e (ih hr)

/-- The tail read returns the row with the greatest `id`. -/
theorem dernier_log_max {l : List Journal} {m : Journal}
    (h : dernier_log l = some m) : ∀ e ∈ l, e.id ≤ m.id := by
  induction l generalizing m with
  | nil => simp [dernier_log] at h
  | cons e rest ih =>
    unfold dernier_log at h
    intro x hx
    cases hr : dernier_log rest with
    | none =>
      rw [hr] at h
      injection h with h'
      subst h'
      have hrest : rest = [] := dernier_log_eq_none.mp hr
      subst hrest
      rcases List.mem_cons.mp hx with hx | hx
      · subst hx; exact Nat.le_refl _
      · simp at hx
    | some m' =>
      rw [hr] at h
      dsimp only at h
      by_cases hid : m'.id < e.id
      · rw [if_pos hid] at h
        injection h with h'
        subst h'
        rcases List.mem_cons.mp hx with hx | hx
        · subst hx; exact Nat.le_refl _
        · exact Nat.le_of_lt (Nat.lt_of_le_of_lt (ih hr x hx) hid)
      · rw [if_neg hid] at h
        injection h with h'
        subst h'
        rcases List.mem_cons.mp hx with hx | hx
        · subst hx; omega
        · exact ih hr x hx

/-! ## C1, C3, C6, C10 — the ledger writer -/

/-- C1: for every ledger entry created by a successful append (`log_action`
returning `True`), re-deriving the canonical JSON payload from the entry's
stored fields (timestamp, utilisateur_id, action, cible, details,
hash_precedent) and recomputing SHA-256 and HMAC-SHA256 over it reproduces
the stored `hash_actuel` and `signature_hmac` exactly. -/
theorem c1_roundtrip_of_successful_append
    (db : DB) (uid : Option Int) (action : String) (cible : Option String)
    (details : Option Json) (now : Datetime) (commitOk : Bool) (db' : DB)
    (h : log_action db uid action cible details now commitOk = (db', true)) :
    ∃ e c, db'.journal = db.journal ++ [e] ∧
      canonical_of_entry e = Except.ok c ∧
      e.hash_actuel = calculer_hash c ∧
      e.signature_hmac = calculer_hmac c := by
  simp only [log_action] at h
  cases hdv : details_value (detailsJsonOf details) with
  | error u => rw [hdv] at h; simp at h
  | ok dv =>
    rw [hdv] at h
    cases commitOk with
    | false => simp at h
    | true =>
      simp only [if_true] at h
      rw [Prod.mk.injEq] at h
      obtain ⟨hdb, -⟩ := h
      refine ⟨{ id := nextId db.journal, horodatage := now,
                utilisateur_id := uid, action := action, cible := cible,
                details := detailsJsonOf details,
                hash_precedent := prevHashOf db.journal,
                hash_actuel := calculer_hash (audit_canonical
                  (now.isoformat ++ "Z") uid action cible dv
                  (prevHashOf db.journal)),
                signature_hmac := calculer_hmac (audit_canonical
                  (now.isoformat ++ "Z") uid action cible dv
                  (prevHashOf db.journal)) },
              audit_canonical (now.isoformat ++ "Z") uid action cible dv
                (prevHashOf db.journal), ?_, ?_, rfl, rfl⟩
      · rw [← hdb]
      · simp only [canonical_of_entry, hdv, Except.map]
/-- C6: the append operation is atomic and total at its public interface:
on success exactly one new ledger row exists and `log_action` returns
`True`; on any internal failure (including an injected commit failure) the
ledger state is unchanged — zero new rows, no partial write — and
`log_action` returns `False` instead of raising. -/
theorem c6_append_atomic_total
    (db : DB) (uid : Option Int) (action : String) (cible : Option String)
    (details : Option Json) (now : Datetime) (commitOk : Bool) (db' : DB)
    (b : Bool)
    (h : log_action db uid action cible details now commitOk = (db', b)) :
    (b = true → ∃ e, db' = { db with journal := db.journal ++ [e] }) ∧
    (b = false → db' = db) ∧
    (commitOk = false → b = false) := by
  simp only [log_action] at h
  cases hdv : details_value (detailsJsonOf details) with
  | error u =>
    rw [hdv] at h
    rw [Prod.mk.injEq] at h
    obtain ⟨h1, h2⟩ := h
    subst h1
    subst h2
    refine ⟨fun hb => by simp at hb, fun _ => rfl, fun _ => rfl⟩
  | ok dv =>
    rw [hdv] at h
    cases commitOk with
    | false =>
      simp only [Bool.false_eq_true, if_false] at h
      rw [Prod.mk.injEq] at h
      obtain ⟨h1, h2⟩ := h
      subst h1
      subst h2
      refine ⟨fun hb => by simp at hb, fun _ => rfl, fun _ => rfl⟩
    | true =>
      simp only [if_true] at h
      rw [Prod.mk.injEq] at h
      obtain ⟨h1, h2⟩ := h
      subst h1
      subst h2
      refine ⟨fun _ => ⟨_, rfl⟩, fun hb => by simp at hb,
        fun hc => by simp at hc⟩

/-- C3: the append operation sets the new entry's `hash_precedent` to the
stored `hash_actuel` of the entry with the maximum `id` (the
`order_by(desc(id)).first()` read), and, when the ledger is empty, to the
fixed genesis sentinel constant; in that empty-ledger case a committed
append returns success having written the first entry. -/
theorem c3_genesis_and_max_id_link :
    (∀ (l : List Journal) (m : Journal), dernier_log l = some m →
      m ∈ l ∧ ∀ e ∈ l, e.id ≤ m.id) ∧
    (∀ (db : DB) (uid : Option Int) (action : String) (cible : Option String)
        (details : Option Json) (now : Datetime) (commitOk : Bool) (db' : DB),
      log_action db uid action cible details now commitOk = (db', true) →
      ∃ e, db'.journal = db.journal ++ [e] ∧
        e.hash_precedent = prevHashOf db.journal ∧
        (db.journal = [] → e.hash_precedent = GENESIS_HASH)) ∧
    (∀ (uid : Option Int) (action : String) (cible : Option String)
        (details : Option Json) (now : Datetime),
      (∃ v, details_value (detailsJsonOf details) = Except.ok v) →
      ∀ db : DB, db.journal = [] →
        (log_action db uid action cible details now true).2 = true ∧
        ∃ e, (log_action db uid action cible details now true).1.journal = [e] ∧
          e.hash_precedent = GENESIS_HASH) := by
  refine ⟨fun l m h => ⟨dernier_log_mem h, dernier_log_max h⟩, ?_, ?_⟩
  · intro db uid action cible details now commitOk db' h
    simp only [log_action] at h
    cases hdv : details_value (detailsJsonOf details) with
    | error u => rw [hdv] at h; simp at h
    | ok dv =>
      rw [hdv] at h
      cases commitOk with
      | false => simp at h
      | true =>
        simp only [if_true] at h
        rw [Prod.mk.injEq] at h
        obtain ⟨hdb, -⟩ := h
        refine ⟨_, by rw [← hdb], rfl, fun h0 => ?_⟩
        show prevHashOf db.journal = GENESIS_HASH
        rw [h0]
        rfl
  · intro uid action cible details now hok db h0
    obtain ⟨v, hv⟩ := hok
    simp only [log_action, hv, if_true]
    refine ⟨trivial,
      { id := nextId db.journal, horodatage := now,
        utilisateur_id := uid, action := action, cible := cible,
        details := detailsJsonOf details,
        hash_precedent := prevHashOf db.journal,
        hash_actuel := calculer_hash (audit_canonical (now.isoformat ++ "Z")
          uid action cible v (prevHashOf db.journal)),
        signature_hmac := calculer_hmac (audit_canonical (now.isoformat ++ "Z")
          uid action cible v (prevHashOf db.journal)) }, ?_, ?_⟩
    · rw [h0]
      rfl
    · show prevHashOf db.journal = GENESIS_HASH
      rw [h0]
      rfl

/-- C10: a call of `log_action` whose `details` argument is an empty dict
is indistinguishable from the same call with `details` omitted: the empty
dict is falsy, so the stored `details` column is NULL, the canonical
payload's `"details"` field is JSON `null`, and the stored row, hash and
signature are identical to those of the `None` call. -/
theorem c10_empty_details_equals_none
    (db : DB) (uid : Option Int) (action : String) (cible : Option String)
    (now : Datetime) (commitOk : Bool) :
    log_action db uid action cible (some (Json.obj [])) now commitOk =
      log_action db uid action cible none now commitOk ∧
    (∀ db', log_action db uid action cible (some (Json.obj [])) now commitOk
        = (db', true) →
      ∃ e, db'.journal = db.journal ++ [e] ∧ e.details = none ∧
        e.hash_actuel = calculer_hash (audit_canonical (now.isoformat ++ "Z")
          uid action cible Json.null (prevHashOf db.journal)) ∧
        e.signature_hmac = calculer_hmac (audit_canonical (now.isoformat ++ "Z")
          uid action cible Json.null (prevHashOf db.journal))) := by
  constructor
  · have h1 : detailsJsonOf (some (Json.obj [])) = detailsJsonOf none := rfl
    simp only [log_action, h1]
  · intro db' h
    simp only [log_action] at h
    have hdv : details_value (detailsJsonOf (some (Json.obj []))) =
        Except.ok Json.null := rfl
    rw [hdv] at h
    cases commitOk with
    | false => simp at h
    | true =>
      simp only [if_true] at h
      rw [Prod.mk.injEq] at h
      obtain ⟨hdb, -⟩ := h
      refine ⟨{ id := nextId db.journal, horodatage := now,
                utilisateur_id := uid, action := action, cible := cible,
                details := detailsJsonOf (some (Json.obj [])),
                hash_precedent := prevHashOf db.journal,
                hash_actuel := calculer_hash (audit_canonical
                  (now.isoformat ++ "Z") uid action cible Json.null
                  (prevHashOf db.journal)),
                signature_hmac := calculer_hmac (audit_canonical
                  (now.isoformat ++ "Z") uid action cible Json.null
                  (prevHashOf db.journal)) },
        ?_, rfl, rfl, rfl⟩
      rw [← hdb]
/-! ## Verifier characterization -/

/-- The expected previous hash for the entry at position `i` of a walk
starting at `prev0`: `prev0` at position 0, else the *stored*
`hash_actuel` of the predecessor (the rolling variable of both
verification loops). -/
def prevAt (prev0 : String) (es : List Journal) : Nat → String
  | 0 => prev0
  | j + 1 =>
    match es[j]? with
    | some e => e.hash_actuel
    | none => prev0

/-- `prevAt` steps through a cons for in-range positions. -/
theorem prevAt_cons (prev : String) (e : Journal) (rest : List Journal)
    (j : Nat) (hj : j < rest.length + 1) :
    prevAt prev (e :: rest) (j + 1) = prevAt e.hash_actuel rest j := by
  cases j with
  | zero => simp [prevAt]
  | succ k =>
    have hk : k < rest.length := by omega
    simp [prevAt, List.getElem?_eq_getElem hk]

/-- Stored chain pointers all agree with the stored hashes of their
predecessors (decidably, walking from `prev`). -/
def chainLinkedFrom (prev : String) : List Journal → Bool
  | [] => true
  | e :: rest => (e.hash_precedent == prev) && chainLinkedFrom e.hash_actuel rest

/-- Consistent stored pointers, positionally. -/
theorem chainLinkedFrom_spec {es : List Journal} :
    ∀ {prev : String}, chainLinkedFrom prev es = true →
    ∀ i e, es[i]? = some e → e.hash_precedent = prevAt prev es i := by
  induction es with
  | nil => intro prev _ i e hx; simp at hx
  | cons e rest ih =>
    intro prev h i x hx
    simp only [chainLinkedFrom, Bool.and_eq_true, beq_iff_eq] at h
    obtain ⟨h1, h2⟩ := h
    cases i with
    | zero =>
      simp only [List.getElem?_cons_zero] at hx
      injection hx with hx
      subst hx
      exact h1
    | succ j =>
      have hx' : rest[j]? = some x := by simpa using hx
      have hj : j < rest.length := (List.getElem?_eq_some.mp hx').1
      rw [prevAt_cons prev e rest j (by omega)]
      exact ih h2 j x hx'

/-- The three check messages vanish exactly when all three checks pass. -/
theorem entry_msgs_eq_nil {prev : String} {e : Journal} {c : String} :
    entry_msgs prev e c = [] ↔
      e.hash_precedent = prev ∧ e.hash_actuel = calculer_hash c ∧
        e.signature_hmac = calculer_hmac c := by
  unfold entry_msgs
  split_ifs with h1 h2 h3 <;> simp_all

/-- `rupture_precedent` is reported exactly on a linkage mismatch. -/
theorem rupture_mem_entry_tags {prev : String} {e : Journal} {c : String} :
    "rupture_precedent" ∈ entry_tags prev e c ↔ e.hash_precedent ≠ prev := by
  unfold entry_tags
  split_ifs with h1 h2 h3 <;> simp_all

/-- `hash_invalide` is reported exactly on a content-hash mismatch. -/
theorem hash_invalide_mem_entry_tags {prev : String} {e : Journal} {c : String} :
    "hash_invalide" ∈ entry_tags prev e c ↔ e.hash_actuel ≠ calculer_hash c := by
  unfold entry_tags
  split_ifs with h1 h2 h3 <;> simp_all

/-- `hmac_invalide` is reported exactly on a signature mismatch. -/
theorem hmac_invalide_mem_entry_tags {prev : String} {e : Journal} {c : String} :
    "hmac_invalide" ∈ entry_tags prev e c ↔
      e.signature_hmac ≠ calculer_hmac c := by
  unfold entry_tags
  split_ifs with h1 h2 h3 <;> simp_all

/-- With a matching chain pointer the status cannot be
`broken_precedent`. -/
theorem entry_status_ne_broken {prev : String} {e : Journal} {c : String}
    (h : e.hash_precedent = prev) :
    entry_status prev e c ≠ "broken_precedent" := by
  unfold entry_status
  split_ifs with h1 h2 h3 <;> first | decide | exact absurd h h3

/-- Characterization of a successful plain verification walk: the error
list is empty exactly when every entry passes all three checks against the
stored-hash chain. -/
theorem verif_chain_ok_iff :
    ∀ (es : List Journal) (prev : String) (errs : List String),
      verif_chain prev es = Except.ok errs →
      (errs = [] ↔ ∀ i e, es[i]? = some e →
        ∃ c, canonical_of_entry e = Except.ok c ∧
          e.hash_precedent = prevAt prev es i ∧
          e.hash_actuel = calculer_hash c ∧
          e.signature_hmac = calculer_hmac c) := by
  intro es
  induction es with
  | nil =>
    intro prev errs h
    simp only [verif_chain] at h
    injection h with h
    subst h
    simp
  | cons e rest ih =>
    intro prev errs h
    unfold verif_chain at h
    cases hc : canonical_of_entry e with
    | error u => rw [hc] at h; exact absurd h (by simp)
    | ok c =>
      rw [hc] at h
      cases ht : verif_chain e.hash_actuel rest with
      | error u => rw [ht] at h; simp [Except.map] at h
      | ok tl =>
        rw [ht] at h
        simp only [Except.map] at h
        injection h with h
        subst h
        constructor
        · intro hnil
          obtain ⟨hm1, hm2⟩ := List.append_eq_nil.mp hnil
          obtain ⟨hp, hh, hs⟩ := entry_msgs_eq_nil.mp hm1
          have hrest := (ih e.hash_actuel tl ht).mp hm2
          intro i x hx
          cases i with
          | zero =>
            simp only [List.getElem?_cons_zero] at hx
            injection hx with hx
            subst hx
            exact ⟨c, hc, hp, hh, hs⟩
          | succ j =>
            have hx' : rest[j]? = some x := by simpa using hx
            have hj : j < rest.length := (List.getElem?_eq_some.mp hx').1
            obtain ⟨c', h1, h2, h3, h4⟩ := hrest j x hx'
            refine ⟨c', h1, ?_, h3, h4⟩
            rw [prevAt_cons prev e rest j (by omega)]
            exact h2
        · intro hall
          obtain ⟨c0, hc0, hp, hh, hs⟩ := hall 0 e (by simp)
          rw [hc] at hc0
          injection hc0 with hc0
          subst hc0
          have hm1 : entry_msgs prev e c = [] := entry_msgs_eq_nil.mpr ⟨hp, hh, hs⟩
          have hm2 : tl = [] := by
            refine (ih e.hash_actuel tl ht).mpr ?_
            intro j x hx'
            have hj : j < rest.length := (List.getElem?_eq_some.mp hx').1
            obtain ⟨c', h1, h2, h3, h4⟩ := hall (j + 1) x (by simpa using hx')
            refine ⟨c', h1, ?_, h3, h4⟩
            rw [← prevAt_cons prev e rest j (by omega)]
            exact h2
          rw [hm1, hm2]
          rfl

/-- Characterization of a successful detailed verification walk: one
report entry per row, whose `errors` and `status` are the three checks
against the stored-hash chain. -/
theorem verif_detailed_chain_spec :
    ∀ (es : List Journal) (prev : String) (ents : List DetailEntry)
      (gerrs : List (Nat × String)),
      verif_detailed_chain prev es = Except.ok (ents, gerrs) →
      ents.length = es.length ∧
      (∀ i x, es[i]? = some x →
        ∃ c ent, canonical_of_entry x = Except.ok c ∧ ents[i]? = some ent ∧
          ent.errors = entry_tags (prevAt prev es i) x c ∧
          ent.status = entry_status (prevAt prev es i) x c) := by
  intro es
  induction es with
  | nil =>
    intro prev ents gerrs h
    simp only [verif_detailed_chain] at h
    injection h with h
    rw [Prod.mk.injEq] at h
    obtain ⟨h1, -⟩ := h
    subst h1
    exact ⟨rfl, fun i x hx => by simp at hx⟩
  | cons e rest ih =>
    intro prev ents gerrs h
    unfold verif_detailed_chain at h
    cases hdv : details_value e.details with
    | error u => rw [hdv] at h; exact absurd h (by simp)
    | ok dv =>
      rw [hdv] at h
      cases ht : verif_detailed_chain e.hash_actuel rest with
      | error u => rw [ht] at h; simp [Except.map] at h
      | ok p =>
        rw [ht] at h
        simp only [Except.map] at h
        injection h with h
        rw [Prod.mk.injEq] at h
        obtain ⟨h1, -⟩ := h
        subst h1
        obtain ⟨ihlen, ihspec⟩ := ih e.hash_actuel p.1 p.2 (by rw [ht])
        have hcanon : canonical_of_entry e = Except.ok
            (audit_canonical (e.horodatage.isoformat ++ "Z") e.utilisateur_id
              e.action e.cible dv e.hash_precedent) := by
          simp only [canonical_of_entry, hdv, Except.map]
        constructor
        · simp [ihlen]
        · intro i x hx
          cases i with
          | zero =>
            simp only [List.getElem?_cons_zero] at hx
            injection hx with hx
            subst hx
            exact ⟨_, mkDetailEntry prev e dv
                (audit_canonical (e.horodatage.isoformat ++ "Z")
                  e.utilisateur_id e.action e.cible dv e.hash_precedent),
              hcanon, List.getElem?_cons_zero, rfl, rfl⟩
          | succ j =>
            have hx' : rest[j]? = some x := by simpa using hx
            have hj : j < rest.length := (List.getElem?_eq_some.mp hx').1
            obtain ⟨c', ent, h1, h2, h3, h4⟩ := ihspec j x hx'
            refine ⟨c', ent, h1, by simpa using h2, ?_, ?_⟩
            · rw [prevAt_cons prev e rest j (by omega)]
              exact h3
            · rw [prevAt_cons prev e rest j (by omega)]
              exact h4
/-! ## C5, C2 — the verifiers -/

/-- C5: verification returns overall `valid = true` if and only if no
entry in the scanned range failed any of the three checks — chain linkage
against the stored-hash chain, content hash, HMAC signature; a single
failing check on a single entry makes the verdict false. -/
theorem c5_valid_iff_no_failed_check
    (es : List Journal) (valid : Bool) (errs : List String)
    (h : verifier_integrite es = Except.ok (valid, errs)) :
    valid = true ↔ ∀ i e, es[i]? = some e →
      ∃ c, canonical_of_entry e = Except.ok c ∧
        e.hash_precedent = prevAt GENESIS_HASH es i ∧
        e.hash_actuel = calculer_hash c ∧
        e.signature_hmac = calculer_hmac c := by
  unfold verifier_integrite at h
  cases hc : verif_chain GENESIS_HASH es with
  | error u => rw [hc] at h; simp [Except.map] at h
  | ok errs0 =>
    rw [hc] at h
    simp only [Except.map] at h
    injection h with h
    rw [Prod.mk.injEq] at h
    obtain ⟨h1, h2⟩ := h
    subst h1
    subst h2
    exact Iff.trans List.isEmpty_iff (verif_chain_ok_iff es GENESIS_HASH errs0 hc)

/-- C2: after processing each entry the detailed verifier's running
expected-previous value is the entry's *stored* `hash_actuel` (never the
recomputed hash) — positionally, `rupture_precedent` is flagged at `i` iff
the stored pointer at `i` disagrees with the stored hash at `i-1`;
consequently, on a ledger whose stored `hash_precedent` pointers are all
consistent with the stored hashes (only entry contents corrupted),
verification flags a corrupted position `k` with `bad_hash`/`bad_hmac` but
flags no position — in particular not `k+1` — with `broken_precedent`. -/
theorem c2_non_cascading_verification
    (es : List Journal) (b : Bool) (ents : List DetailEntry)
    (gerrs : List (Nat × String))
    (h : verifier_integrite_detailed es none = Except.ok (b, ents, gerrs)) :
    ents.length = es.length ∧
    (∀ i x ent, es[i]? = some x → ents[i]? = some ent →
      (("rupture_precedent" ∈ ent.errors) ↔
        x.hash_precedent ≠ prevAt GENESIS_HASH es i)) ∧
    (chainLinkedFrom GENESIS_HASH es = true →
      (∀ (i : Nat) (ent : DetailEntry), ents[i]? = some ent →
        ent.status ≠ "broken_precedent" ∧ "rupture_precedent" ∉ ent.errors) ∧
      (∀ (k : Nat) (x : Journal) (c : String) (ent : DetailEntry),
        es[k]? = some x → ents[k]? = some ent →
        canonical_of_entry x = Except.ok c →
        ((x.hash_actuel ≠ calculer_hash c ∨ x.signature_hmac ≠ calculer_hmac c) →
          (ent.status = "bad_hash" ∨ ent.status = "bad_hmac")) ∧
        (x.hash_actuel ≠ calculer_hash c → "hash_invalide" ∈ ent.errors) ∧
        (x.signature_hmac ≠ calculer_hmac c → "hmac_invalide" ∈ ent.errors))) := by
  simp only [verifier_integrite_detailed] at h
  cases hd : verif_detailed_chain GENESIS_HASH es with
  | error u => rw [hd] at h; simp [Except.map] at h
  | ok p =>
    rw [hd] at h
    simp only [Except.map] at h
    injection h with h
    rw [Prod.mk.injEq, Prod.mk.injEq] at h
    obtain ⟨-, h2, -⟩ := h
    subst h2
    obtain ⟨hlen, hspec⟩ := verif_detailed_chain_spec es GENESIS_HASH p.1 p.2 (by rw [hd])
    refine ⟨hlen, ?_, ?_⟩
    · intro i x ent hx hent
      obtain ⟨c, ent', hc, hent', herr, -⟩ := hspec i x hx
      rw [hent] at hent'
      injection hent' with hent'
      subst hent'
      rw [herr]
      exact rupture_mem_entry_tags
    · intro hlink
      have hget : ∀ (i : Nat) (ent : DetailEntry), p.1[i]? = some ent →
          ∃ x, es[i]? = some x := by
        intro i ent hent
        have hi : i < p.1.length := (List.getElem?_eq_some.mp hent).1
        have hi' : i < es.length := hlen ▸ hi
        exact ⟨_, List.getElem?_eq_getElem hi'⟩
      constructor
      · intro i ent hent
        obtain ⟨x, hx⟩ := hget i ent hent
        obtain ⟨c, ent', hc, hent', herr, hst⟩ := hspec i x hx
        rw [hent] at hent'
        injection hent' with hent'
        subst hent'
        have hp : x.hash_precedent = prevAt GENESIS_HASH es i :=
          chainLinkedFrom_spec hlink i x hx
        constructor
        · rw [hst]
          exact entry_status_ne_broken hp
        · rw [herr]
          rw [rupture_mem_entry_tags]
          simp [hp]
      · intro k x c ent hx hent hc0
        obtain ⟨c', ent', hc, hent', herr, hst⟩ := hspec k x hx
        rw [hc0] at hc
        injection hc with hc
        subst hc
        rw [hent] at hent'
        injection hent' with hent'
        subst hent'
        have hp : x.hash_precedent = prevAt GENESIS_HASH es k :=
          chainLinkedFrom_spec hlink k x hx
        refine ⟨?_, ?_, ?_⟩
        · intro hbad
          rw [hst]
          unfold entry_status
          by_cases hs : x.signature_hmac ≠ calculer_hmac c
          · rw [if_pos hs]
            right
            rfl
          · rw [if_neg hs]
            have hh : x.hash_actuel ≠ calculer_hash c := by
              rcases hbad with hbad | hbad
              · exact hbad
              · exact absurd hbad (by simpa using hs)
            rw [if_pos hh]
            left
            rfl
        · intro hh
          rw [herr]
          exact hash_invalide_mem_entry_tags.mpr hh
        · intro hs
          rw [herr]
          exact hmac_invalide_mem_entry_tags.mpr hs
/-! ## C7, C8 — daily closures -/

/-- The closure scan reports nothing exactly when every stored signature
matches the HMAC of its recomputed canonical string. -/
theorem verifier_clotures_valid_iff (cs : List ClotureJournal) :
    (verifier_clotures cs).1 = true ↔ ∀ c ∈ cs,
      c.signature_hmac =
        calculer_hmac (cloture_payload c.date c.dernier_log_id c.hash_racine) := by
  have hscan : ∀ cs : List ClotureJournal,
      ((verifier_clotures_scan cs).1 = [] ↔ ∀ c ∈ cs,
        c.signature_hmac =
          calculer_hmac (cloture_payload c.date c.dernier_log_id c.hash_racine)) := by
    intro cs
    induction cs with
    | nil => simp [verifier_clotures_scan]
    | cons c rest ih =>
      unfold verifier_clotures_scan
      by_cases hc : c.signature_hmac =
          calculer_hmac (cloture_payload c.date c.dernier_log_id c.hash_racine)
      · rw [if_neg (by simpa using hc)]
        simp only [List.mem_cons]
        constructor
        · intro h x hx
          rcases hx with hx | hx
          · subst hx; exact hc
          · exact (ih.mp h) x hx
        · intro h
          exact ih.mpr fun x hx => h x (Or.inr hx)
      · rw [if_pos (by simpa using hc)]
        simp only [List.mem_cons]
        constructor
        · intro h; exact absurd h (by simp)
        · intro h; exact absurd (h c (Or.inl rfl)) hc
  unfold verifier_clotures
  rw [List.isEmpty_iff]
  exact hscan cs

/-- C7: a daily closure's stored signature is the HMAC-SHA256 of exactly
the canonical string `"CLOTURE|<date>|<lastEntryId>|<rootHash>"`, where
`lastEntryId` is the maximum `id` among the entries timestamped within the
date's window and `rootHash` is that entry's stored `hash_actuel`;
`verifier_clotures` recomputes the signature from the same canonical
string built from the stored columns. -/
theorem c7_closure_signature_canonical
    (db : DB) (d : PyDate) (db' : DB) (msg : String)
    (h : cloturer_journee db d true = (db', true, msg)) :
    (∃ c : ClotureJournal, db'.clotures = db.clotures ++ [c] ∧ c.date = d ∧
      c.signature_hmac =
        calculer_hmac (cloture_payload d c.dernier_log_id c.hash_racine) ∧
      (∃ e, e ∈ db.journal ∧ inWindow d e.horodatage = true ∧
        e.id = c.dernier_log_id ∧ e.hash_actuel = c.hash_racine) ∧
      (∀ e, e ∈ db.journal → inWindow d e.horodatage = true →
        e.id ≤ c.dernier_log_id)) ∧
    (∀ cs : List ClotureJournal, (verifier_clotures cs).1 = true ↔
      ∀ c ∈ cs, c.signature_hmac =
        calculer_hmac (cloture_payload c.date c.dernier_log_id c.hash_racine)) := by
  refine ⟨?_, fun cs => verifier_clotures_valid_iff cs⟩
  simp only [cloturer_journee] at h
  cases hf : db.clotures.find? (fun c => c.date == d) with
  | some c0 => rw [hf] at h; simp at h
  | none =>
    rw [hf] at h
    cases hdl : dernier_log (db.journal.filter (fun e => inWindow d e.horodatage)) with
    | none => rw [hdl] at h; simp at h
    | some dl =>
      rw [hdl] at h
      simp only [if_true] at h
      rw [Prod.mk.injEq, Prod.mk.injEq] at h
      obtain ⟨h1, -⟩ := h
      refine ⟨{ id := nextClotureId db.clotures, date := d,
                dernier_log_id := dl.id, hash_racine := dl.hash_actuel,
                signature_hmac := calculer_hmac
                  (cloture_payload d dl.id dl.hash_actuel) },
        ?_, rfl, rfl, ?_, ?_⟩
      · rw [← h1]
      · have hmem := dernier_log_mem hdl
        rw [List.mem_filter] at hmem
        exact ⟨dl, hmem.1, hmem.2, rfl, rfl⟩
      · intro e he hw
        exact dernier_log_max hdl e (List.mem_filter.mpr ⟨he, hw⟩)

/-- C8: `closeDay(D)` fails without inserting anything when a closure
already exists for `D` (already-closed) or when no ledger entry is
timestamped within `D`'s window (no-entries); calling it twice on the same
non-empty day succeeds the first time and fails the second, leaving
exactly one closure row for `D`. -/
theorem c8_close_day_exactly_once (db : DB) (d : PyDate) :
    (∀ commitOk : Bool, (∃ c, c ∈ db.clotures ∧ c.date = d) →
      cloturer_journee db d commitOk =
        (db, false, "La journée du " ++ d.isoformat ++ " est déjà clôturée.")) ∧
    (∀ commitOk : Bool, (∀ c, c ∈ db.clotures → c.date ≠ d) →
      (∀ e, e ∈ db.journal → inWindow d e.horodatage = false) →
      cloturer_journee db d commitOk =
        (db, false, "Aucun log trouvé pour la journée du " ++ d.isoformat ++ ".")) ∧
    (∀ db' msg, cloturer_journee db d true = (db', true, msg) →
      cloturer_journee db' d true =
        (db', false, "La journée du " ++ d.isoformat ++ " est déjà clôturée.") ∧
      db.clotures.filter (fun c => c.date == d) = [] ∧
      ∃ c, db'.clotures.filter (fun c => c.date == d) = [c]) := by
  refine ⟨?_, ?_, ?_⟩
  · intro commitOk hex
    obtain ⟨c, hc, hd⟩ := hex
    cases hf : db.clotures.find? (fun c => c.date == d) with
    | none =>
      exfalso
      have := List.find?_eq_none.mp hf c hc
      simp [hd] at this
    | some c0 => simp only [cloturer_journee, hf]
  · intro commitOk hnone hwin
    have hf : db.clotures.find? (fun c => c.date == d) = none :=
      List.find?_eq_none.mpr (fun c hc => by simpa using hnone c hc)
    have hfilter : db.journal.filter (fun e => inWindow d e.horodatage) = [] :=
      List.filter_eq_nil_iff.mpr (fun e he => by simp [hwin e he])
    simp only [cloturer_journee, hf, hfilter]
    rfl
  · intro db' msg h
    simp only [cloturer_journee] at h
    cases hf : db.clotures.find? (fun c => c.date == d) with
    | some c0 => rw [hf] at h; simp at h
    | none =>
      rw [hf] at h
      cases hdl : dernier_log (db.journal.filter (fun e => inWindow d e.horodatage)) with
      | none => rw [hdl] at h; simp at h
      | some dl =>
        rw [hdl] at h
        simp only [if_true] at h
        rw [Prod.mk.injEq, Prod.mk.injEq] at h
        obtain ⟨h1, -⟩ := h
        set nc : ClotureJournal :=
          { id := nextClotureId db.clotures, date := d, dernier_log_id := dl.id,
            hash_racine := dl.hash_actuel,
            signature_hmac := calculer_hmac
              (cloture_payload d dl.id dl.hash_actuel) } with hnc
        have hdate : nc.date = d := by rw [hnc]
        have hclo : db'.clotures = db.clotures ++ [nc] := by rw [← h1]
        have hfilterdb : db.clotures.filter (fun c => c.date == d) = [] :=
          List.filter_eq_nil_iff.mpr
            (fun c hc => by simpa using List.find?_eq_none.mp hf c hc)
        have hfind2 : db'.clotures.find? (fun c => c.date == d) = some nc := by
          rw [hclo, List.find?_append, hf]
          rw [List.find?_cons_of_pos _ (by simp [hdate])]
          rfl
        refine ⟨?_, hfilterdb, ⟨nc, ?_⟩⟩
        · simp only [cloturer_journee, hfind2]
        · rw [hclo, List.filter_append, hfilterdb, List.nil_append]
          rw [List.filter_cons_of_pos (by simp [hdate])]
          rfl
/-! ## C4 — verification on a corrupted details column -/

/-- A stored ledger row whose `details` column holds a string that is not
well-formed JSON. -/
def entree_corrompue : Journal :=
  { id := 1, horodatage := ⟨⟨2025, 1, 1⟩, 10, 0, 0⟩, utilisateur_id := some 1,
    action := "TEST", cible := none, details := some "\x7binvalid",
    hash_precedent := GENESIS_HASH,
    hash_actuel := "deadbeef", signature_hmac := "deadbeef" }

/-- C4 (code bug): on a ledger whose `details` column holds a string that
is not well-formed JSON, `verifier_integrite` (and the detailed variant)
does not return a `(valid, errors)` report with a per-entry corruption
signal — the `json.loads` call sits outside any `try`, so the whole run
aborts with the uncaught `JSONDecodeError`, modelled as `Except.error`. -/
theorem c4_verifier_raises_on_malformed_details :
    json_loads "\x7binvalid" = none ∧
    verifier_integrite [entree_corrompue] = Except.error () ∧
    verifier_integrite_detailed [entree_corrompue] none = Except.error () := by
  exact ⟨rfl, rfl, rfl⟩

/-! ## Concrete fixtures for the witnesses -/

/-- 2025-01-01 10:00:00 UTC. -/
def t_un : Datetime := ⟨⟨2025, 1, 1⟩, 10, 0, 0⟩

/-- 2025-01-01 10:05:30 UTC. -/
def t_deux : Datetime := ⟨⟨2025, 1, 1⟩, 10, 5, 30⟩

/-- One committed append on the empty database. -/
def db_un : DB :=
  (log_action DB.empty (some 1) "TEST_1" (some "Test Target")
    (some (Json.obj [("key", Json.str "val1")])) t_un true).1

/-- A second committed append. -/
def db_deux : DB :=
  (log_action db_un (some 2) "TEST_2" none none t_deux true).1

/-- The two-entry ledger with the first entry's content tampered
(`action` rewritten post-hoc), every stored hash column left intact. -/
def journal_altere : List Journal :=
  match db_deux.journal with
  | e :: rest => { e with action := "EVIL" } :: rest
  | [] => []

/-- The canonical payload recomputed from the tampered first entry. -/
def canon_altere : String :=
  match canonical_of_entry (journal_altere.getD 0 default) with
  | Except.ok c => c
  | Except.error _ => ""
/-! ## Witnesses -/

set_option maxRecDepth 100000

/-- C1 witness: a concrete successful append whose stored hash and
signature are reproduced by recomputation. -/
theorem c1_roundtrip_witness :
    ∃ e c, db_un.journal = DB.empty.journal ++ [e] ∧
      canonical_of_entry e = Except.ok c ∧
      e.hash_actuel = calculer_hash c ∧
      e.signature_hmac = calculer_hmac c := by
  have h2 : (log_action DB.empty (some 1) "TEST_1" (some "Test Target")
      (some (Json.obj [("key", Json.str "val1")])) t_un true).2 = true := rfl
  have h : log_action DB.empty (some 1) "TEST_1" (some "Test Target")
      (some (Json.obj [("key", Json.str "val1")])) t_un true = (db_un, true) :=
    Prod.ext rfl h2
  exact c1_roundtrip_of_successful_append DB.empty (some 1) "TEST_1"
    (some "Test Target") (some (Json.obj [("key", Json.str "val1")])) t_un
    true db_un h

/-- C3 witness: a committed append on the empty ledger succeeds and links
the first entry to the genesis sentinel. -/
theorem c3_genesis_witness :
    (log_action DB.empty (some 1) "TEST_ACTION" (some "Système")
        (some (Json.obj [("test", Json.str "ok")])) t_un true).2 = true ∧
    ∃ e, (log_action DB.empty (some 1) "TEST_ACTION" (some "Système")
        (some (Json.obj [("test", Json.str "ok")])) t_un true).1.journal = [e] ∧
      e.hash_precedent = GENESIS_HASH := by
  exact c3_genesis_and_max_id_link.2.2 (some 1) "TEST_ACTION" (some "Système")
    (some (Json.obj [("test", Json.str "ok")])) t_un ⟨_, rfl⟩ DB.empty rfl

/-- C6 witness: a failed commit leaves the database untouched; a
successful one appends exactly one row. -/
theorem c6_append_witness :
    (log_action DB.empty (some 1) "TEST" none none t_un false).1 = DB.empty ∧
    ∃ e, (log_action DB.empty (some 1) "TEST" none none t_un true).1 =
      { DB.empty with journal := DB.empty.journal ++ [e] } := by
  constructor
  · exact (c6_append_atomic_total DB.empty (some 1) "TEST" none none t_un
      false _ _ rfl).2.1 rfl
  · exact (c6_append_atomic_total DB.empty (some 1) "TEST" none none t_un
      true _ _ rfl).1 rfl

/-- C10 witness: a concrete append with an empty `details` dict stores a
NULL column and hashes the payload with a JSON `null`. -/
theorem c10_empty_details_witness :
    ∃ e, (log_action DB.empty (some 1) "TEST" none (some (Json.obj [])) t_un
        true).1.journal = DB.empty.journal ++ [e] ∧ e.details = none ∧
      e.hash_actuel = calculer_hash (audit_canonical (t_un.isoformat ++ "Z")
        (some 1) "TEST" none Json.null (prevHashOf DB.empty.journal)) ∧
      e.signature_hmac = calculer_hmac (audit_canonical (t_un.isoformat ++ "Z")
        (some 1) "TEST" none Json.null (prevHashOf DB.empty.journal)) := by
  have h2 : (log_action DB.empty (some 1) "TEST" none (some (Json.obj []))
      t_un true).2 = true := rfl
  have h : log_action DB.empty (some 1) "TEST" none (some (Json.obj []))
      t_un true =
      ((log_action DB.empty (some 1) "TEST" none (some (Json.obj []))
        t_un true).1, true) :=
    Prod.ext rfl h2
  exact (c10_empty_details_equals_none DB.empty (some 1) "TEST" none t_un
    true).2 _ h
set_option maxHeartbeats 4000000 in
/-- C5 witness: on a concrete untampered two-entry ledger the verdict is
`valid = true` and the theorem yields all three checks at position 0. -/
theorem c5_valid_witness :
    ∃ c, canonical_of_entry (db_deux.journal.getD 0 default) = Except.ok c ∧
      (db_deux.journal.getD 0 default).hash_precedent =
        prevAt GENESIS_HASH db_deux.journal 0 ∧
      (db_deux.journal.getD 0 default).hash_actuel = calculer_hash c ∧
      (db_deux.journal.getD 0 default).signature_hmac = calculer_hmac c := by
  have hrun : verifier_integrite db_deux.journal = Except.ok (true, []) := by decide
  have h := (c5_valid_iff_no_failed_check db_deux.journal true [] hrun).mp rfl
  exact h 0 _ rfl
set_option maxHeartbeats 4000000 in
/-- C2 witness: tampering with the first entry's `action` (hash columns
left intact) flags entry 0 with `hash_invalide` and a `bad_hash`/`bad_hmac`
status, while entry 1 is not flagged `broken_precedent`. -/
theorem c2_non_cascading_witness :
    ∃ (b : Bool) (ents : List DetailEntry) (gerrs : List (Nat × String))
      (ent1 ent2 : DetailEntry),
      verifier_integrite_detailed journal_altere none =
        Except.ok (b, ents, gerrs) ∧
      ents[0]? = some ent1 ∧ "hash_invalide" ∈ ent1.errors ∧
      (ent1.status = "bad_hash" ∨ ent1.status = "bad_hmac") ∧
      ents[1]? = some ent2 ∧ "rupture_precedent" ∉ ent2.errors ∧
      ent2.status ≠ "broken_precedent" := by
  cases hrun : verifier_integrite_detailed journal_altere none with
  | error u =>
    exfalso
    have hok : (verifier_integrite_detailed journal_altere none).isOk = true := rfl
    rw [hrun] at hok
    exact Bool.noConfusion hok
  | ok r =>
    obtain ⟨b, ents, gerrs⟩ := r
    obtain ⟨hlen, -, hrest⟩ :=
      c2_non_cascading_verification journal_altere b ents gerrs hrun
    have hlink : chainLinkedFrom GENESIS_HASH journal_altere = true := by decide
    obtain ⟨hflags, hbad⟩ := hrest hlink
    have hlen2 : ents.length = 2 := by rw [hlen]; rfl
    have h0s : ents[0]?.isSome := by
      have h01 : (0 : Nat) < ents.length := by omega
      rw [List.getElem?_eq_getElem h01]
      rfl
    obtain ⟨ent1, hent1⟩ := Option.isSome_iff_exists.mp h0s
    have h1s : ents[1]?.isSome := by
      have h11 : (1 : Nat) < ents.length := by omega
      rw [List.getElem?_eq_getElem h11]
      rfl
    obtain ⟨ent2, hent2⟩ := Option.isSome_iff_exists.mp h1s
    have hx0 : journal_altere[0]? = some (journal_altere.getD 0 default) := rfl
    have hc0 : canonical_of_entry (journal_altere.getD 0 default) =
        Except.ok canon_altere := rfl
    have hmis : (journal_altere.getD 0 default).hash_actuel ≠
        calculer_hash canon_altere := by decide
    obtain ⟨hst, hhm, -⟩ := hbad 0 (journal_altere.getD 0 default)
      canon_altere ent1 hx0 hent1 hc0
    obtain ⟨hb2, hr2⟩ := hflags 1 ent2 hent2
    exact ⟨b, ents, gerrs, ent1, ent2, rfl, hent1, hhm hmis,
      hst (Or.inl hmis), hent2, hr2, hb2⟩

/-- C7 witness: closing 2025-01-01 over the concrete two-entry ledger
produces a closure signed over the canonical closure string of the
maximum-id in-window entry. -/
theorem c7_closure_witness :
    ∃ c : ClotureJournal,
      ((cloturer_journee db_deux ⟨2025, 1, 1⟩ true).1).clotures =
        db_deux.clotures ++ [c] ∧ c.date = ⟨2025, 1, 1⟩ ∧
      c.signature_hmac = calculer_hmac
        (cloture_payload ⟨2025, 1, 1⟩ c.dernier_log_id c.hash_racine) ∧
      (∃ e, e ∈ db_deux.journal ∧ inWindow ⟨2025, 1, 1⟩ e.horodatage = true ∧
        e.id = c.dernier_log_id ∧ e.hash_actuel = c.hash_racine) ∧
      (∀ e, e ∈ db_deux.journal → inWindow ⟨2025, 1, 1⟩ e.horodatage = true →
        e.id ≤ c.dernier_log_id) := by
  have h21 : (cloturer_journee db_deux ⟨2025, 1, 1⟩ true).2.1 = true := rfl
  have h : cloturer_journee db_deux ⟨2025, 1, 1⟩ true =
      ((cloturer_journee db_deux ⟨2025, 1, 1⟩ true).1, true,
        (cloturer_journee db_deux ⟨2025, 1, 1⟩ true).2.2) :=
    Prod.ext rfl (Prod.ext h21 rfl)
  exact (c7_closure_signature_canonical db_deux ⟨2025, 1, 1⟩ _ _ h).1

/-- C8 witness: closing the same concrete day twice succeeds once, fails
the second time with the already-closed message and leaves exactly one
closure row for the date. -/
theorem c8_close_twice_witness :
    cloturer_journee ((cloturer_journee db_deux ⟨2025, 1, 1⟩ true).1)
        ⟨2025, 1, 1⟩ true =
      ((cloturer_journee db_deux ⟨2025, 1, 1⟩ true).1, false,
        "La journée du " ++ (⟨2025, 1, 1⟩ : PyDate).isoformat ++
          " est déjà clôturée.") ∧
    ∃ c, ((cloturer_journee db_deux ⟨2025, 1, 1⟩ true).1).clotures.filter
        (fun c => c.date == (⟨2025, 1, 1⟩ : PyDate)) = [c] := by
  have h21 : (cloturer_journee db_deux ⟨2025, 1, 1⟩ true).2.1 = true := rfl
  have h : cloturer_journee db_deux ⟨2025, 1, 1⟩ true =
      ((cloturer_journee db_deux ⟨2025, 1, 1⟩ true).1, true,
        (cloturer_journee db_deux ⟨2025, 1, 1⟩ true).2.2) :=
    Prod.ext rfl (Prod.ext h21 rfl)
  have hmain := (c8_close_day_exactly_once db_deux ⟨2025, 1, 1⟩).2.2 _ _ h
  exact ⟨hmain.1, hmain.2.2⟩
